import Mathlib

/-!
Shallow embedding of the Probability & Expected-Value Engine of
`src/streamlit_portal_app.py` (functions `calc_probabilities`, lines 87-91,
and `expected_value`, lines 94-103), together with proofs of the stated
properties.

Modelling conventions:
* Python numbers (the `int` inputs and the `float` results) are embedded as
  `ℚ`; all divisions that actually run on the claim domains are exact, so
  floating-point tolerance claims hold with exact equality.
* A Python exception (`KeyError` from a dict subscript, `ZeroDivisionError`
  from `int / int` with zero divisor) is embedded as `none` of an `Option`
  result.
* The numpy/pandas float division `counts / counts.sum()` does not raise;
  with a zero total it produces IEEE NaN entries (every count is bounded by
  the reindexed total, so `+inf` cannot arise).  A NaN value is embedded as
  `none : Option ℚ` inside the result mapping.
* A `pandas.DataFrame` of outcome records is represented by the list of its
  結果-column entries; a Python dict by an association list in insertion
  order, so the key sequence of the result is observable.
* The process-wide constant `CATEGORIES` is passed to each function as an
  explicit first argument `cats`, so that properties quantified over the
  configured category set can be stated; the deployed configuration is the
  three-element list below.
-/

namespace Sogake

/-- The configured closed category set, `CATEGORIES` of the source
(line 44). -/
def CATEGORIES : List String := ["勝ち", "負け", "ゴール負け"]

/-- Python `int / int` (and `float` division of scalars): raises
`ZeroDivisionError` on a zero divisor, embedded as `none`; otherwise the
exact quotient. -/
def pydiv (a b : ℚ) : Option ℚ :=
  if b = 0 then none else some (a / b)

/-- numpy element-wise division of a natural count by the reindexed total:
`0 / 0` is IEEE NaN, embedded as `none`; a nonzero total gives the exact
rational.  (`a > 0` with `b = 0`, which would give `+inf`, cannot arise in
`calc_probabilities` because each count is a summand of the total.) -/
def npdiv (a b : ℕ) : Option ℚ :=
  if b = 0 then none else some ((a : ℚ) / (b : ℚ))

/-- Embedding of `calc_probabilities` (source lines 87-91).

* `df.empty` is `records = []`; that branch returns
  `{c: 1 / len(CATEGORIES) for c in CATEGORIES}`, where `1 / len(CATEGORIES)`
  is Python int division (raises on an empty configuration, hence `pydiv`).
* Otherwise `df["結果"].value_counts().reindex(CATEGORIES, fill_value=0)`
  is the per-category occurrence count in `cats` order, `counts.sum()` is
  the total of those reindexed counts, and `(counts / counts.sum())
  .to_dict()` divides element-wise (`npdiv`) and returns the dict keyed in
  `cats` order. -/
def calc_probabilities (cats records : List String) :
    Option (List (String × Option ℚ)) :=
  if records = [] then do
    let u ← pydiv 1 (cats.length : ℚ)
    pure (cats.map (fun c => (c, some u)))
  else
    let total : ℕ := (cats.map (fun c => records.count c)).sum
    some (cats.map (fun c => (c, npdiv (records.count c) total)))

/-- One iteration of the `for c in CATEGORIES` loop body of
`expected_value` (source lines 97-102), producing `(c, ev[c], payout[c])`:
`total = base + bet_amount`, `win_pool = pool[c] + bet_amount` (dict
subscripts can raise `KeyError`, hence the `Option` binds), then
`ratio = total / win_pool if win_pool else 0` and
`payout[c] = ratio * bet_amount if win_pool else 0` — Python number
truthiness makes both guards `win_pool ≠ 0` — and finally
`ev[c] = probs[c] * payout[c] - bet_amount`. -/
def evRow (bet_amount base : ℚ) (pool probs : List (String × ℚ))
    (c : String) : Option (String × ℚ × ℚ) := do
  let total := base + bet_amount
  let pc ← pool.lookup c
  let win_pool := pc + bet_amount
  let ratio ← if win_pool ≠ 0 then pydiv total win_pool else pure (0 : ℚ)
  let pay := if win_pool ≠ 0 then ratio * bet_amount else 0
  let prc ← probs.lookup c
  pure (c, prc * pay - bet_amount, pay)

/-- The loop of `expected_value`: run `evRow` for each category in order,
propagating any raised exception. -/
def evRows (bet_amount base : ℚ) (pool probs : List (String × ℚ)) :
    List String → Option (List (String × ℚ × ℚ))
  | [] => some []
  | c :: cs => do
    let r ← evRow bet_amount base pool probs c
    let rs ← evRows bet_amount base pool probs cs
    pure (r :: rs)

/-- Embedding of `expected_value` (source lines 94-103): `base =
sum(pool.values())`, then the loop fills the dicts `ev` and `payout` in
category order; the function returns the pair `(ev, payout)`. -/
def expected_value (cats : List String) (bet_amount : ℚ)
    (pool probs : List (String × ℚ)) :
    Option (List (String × ℚ) × List (String × ℚ)) := do
  let base : ℚ := (pool.map Prod.snd).sum
  let rows ← evRows bet_amount base pool probs cats
  pure (rows.map (fun r => (r.1, r.2.1)), rows.map (fun r => (r.1, r.2.2)))

/-- Python `sum` over the values of a probability mapping that may hold NaN
entries: any NaN poisons the sum. -/
def optSum : List (Option ℚ) → Option ℚ
  | [] => some 0
  | none :: _ => none
  | some a :: xs => (optSum xs).map (fun b => a + b)

/-!  Helper layer: closed forms for the two functions on the domains the
claims quantify over (pool and probability dicts whose key sequence is the
category list). -/

/-- Closed form of one loop iteration's payout: `S` is `sum(pool.values())`
and `pc` is `pool[c]`. -/
def payoutClosed (S bet pc : ℚ) : ℚ :=
  if pc + bet ≠ 0 then ((S + bet) / (pc + bet)) * bet else 0

/-- Looking a key up in a dict tabulating `f` over the keys returns `f`. -/
theorem lookup_map_self (f : String → ℚ) (cats : List String) (c : String)
    (hc : c ∈ cats) :
    (cats.map (fun a => (a, f a))).lookup c = some (f c) := by
  induction cats with
  | nil => cases hc
  | cons a as ih =>
    rcases List.mem_cons.mp hc with h | h
    · subst h; simp [List.lookup]
    · by_cases hca : c = a
      · subst hca; simp [List.lookup]
      · have hb : (c == a) = false := beq_eq_false_iff_ne.mpr hca
        simpa [List.lookup, hb] using ih h

/-- Closed form of `evRow` when both dicts tabulate functions over the
category list and the key is present. -/
theorem evRow_map (bet base : ℚ) (poolf probsf : String → ℚ)
    (cats : List String) (c : String) (hc : c ∈ cats) :
    evRow bet base (cats.map fun a => (a, poolf a))
        (cats.map fun a => (a, probsf a)) c =
      some (c, probsf c * payoutClosed base bet (poolf c) - bet,
        payoutClosed base bet (poolf c)) := by
  by_cases h : poolf c + bet = 0 <;>
    simp [evRow, lookup_map_self _ _ _ hc, pydiv, payoutClosed, h]

/-- Closed form of the loop `evRows` over any list of keys drawn from the
category list. -/
theorem evRows_map (bet base : ℚ) (poolf probsf : String → ℚ)
    (cats : List String) (l : List String) (h : ∀ c ∈ l, c ∈ cats) :
    evRows bet base (cats.map fun a => (a, poolf a))
        (cats.map fun a => (a, probsf a)) l =
      some (l.map fun c => (c, probsf c * payoutClosed base bet (poolf c) - bet,
        payoutClosed base bet (poolf c))) := by
  induction l with
  | nil => simp [evRows]
  | cons c cs ih =>
    have hc : c ∈ cats := h c (List.mem_cons_self c cs)
    have hcs : ∀ x ∈ cs, x ∈ cats := fun x hx => h x (List.mem_cons_of_mem c hx)
    simp [evRows, evRow_map bet base poolf probsf cats c hc, ih hcs]

/-- Closed form of `expected_value` on tabulated dicts: for every category
`c` (in order) the ev entry is `probs c * payout c - bet` and the payout
entry is `payoutClosed (sum of the pool values) bet (pool c)`. -/
theorem expected_value_closed (cats : List String) (bet : ℚ)
    (poolf probsf : String → ℚ) :
    expected_value cats bet (cats.map fun c => (c, poolf c))
        (cats.map fun c => (c, probsf c)) =
      some
        (cats.map fun c =>
          (c, probsf c * payoutClosed ((cats.map poolf).sum) bet (poolf c) - bet),
         cats.map fun c =>
          (c, payoutClosed ((cats.map poolf).sum) bet (poolf c))) := by
  have hbase : ((cats.map fun c => (c, poolf c)).map Prod.snd) = cats.map poolf := by
    simp [List.map_map]
  simp only [expected_value, hbase,
    evRows_map bet ((cats.map poolf).sum) poolf probsf cats cats (fun c hc => hc),
    Option.bind_some]
  simp [List.map_map]

/-- On a non-empty record list `calc_probabilities` takes the counting
branch. -/
theorem calc_probabilities_nonempty (cats recs : List String) (hne : recs ≠ []) :
    calc_probabilities cats recs =
      some (cats.map fun c =>
        (c, npdiv (recs.count c) ((cats.map fun c => recs.count c).sum))) := by
  simp [calc_probabilities, hne]

/-- The reindexed total is nonzero as soon as one record's category is
configured. -/
theorem total_ne_zero (cats recs : List String) (r : String) (hr : r ∈ recs)
    (hc : r ∈ cats) :
    (cats.map fun c => recs.count c).sum ≠ 0 := by
  have h1 : recs.count r ∈ cats.map fun c => recs.count c :=
    List.mem_map_of_mem _ hc
  have h2 : recs.count r ≤ (cats.map fun c => recs.count c).sum :=
    List.le_sum_of_mem h1
  have h3 : recs.count r ≠ 0 := fun h0 => (List.count_eq_zero.mp h0) hr
  omega

/-- When every record's category is configured and the configured list has
no duplicates, the reindexed total is the number of records. -/
theorem count_sum_eq_length (cats recs : List String) (hnd : cats.Nodup)
    (hsub : ∀ r ∈ recs, r ∈ cats) :
    (cats.map fun c => recs.count c).sum = recs.length := by
  have hsub' : recs.toFinset ⊆ cats.toFinset := fun x hx =>
    List.mem_toFinset.mpr (hsub x (List.mem_toFinset.mp hx))
  have hzero : ∀ x ∈ cats.toFinset, x ∉ recs.toFinset → recs.count x = 0 :=
    fun x _ hnx => List.count_eq_zero.mpr (fun hmem =>
      hnx (List.mem_toFinset.mpr hmem))
  rw [← List.sum_toFinset _ hnd, ← Finset.sum_subset hsub' hzero]
  exact List.sum_toFinset_count_eq_length recs

/-- Casting a list of counts summed in ℕ into ℚ. -/
theorem sum_map_count_cast (cats recs : List String) :
    (cats.map fun c => ((recs.count c : ℕ) : ℚ)).sum =
      (((cats.map fun c => recs.count c).sum : ℕ) : ℚ) := by
  induction cats with
  | nil => simp
  | cons a as ih => simp [ih]

/-- Summing an all-`some` value list. -/
theorem optSum_map_some (f : String → ℚ) (l : List String) :
    optSum (l.map (fun c => some (f c))) = some ((l.map f).sum) := by
  induction l with
  | nil => simp [optSum]
  | cons a as ih => simp [optSum, ih]

/-- C2: on a non-empty record list whose categories all lie in the
configured set, `calc_probabilities` maps each category to its occurrence
count divided by the number of records. -/
theorem calc_probabilities_frequency (cats recs : List String)
    (hnd : cats.Nodup) (hne : recs ≠ []) (hsub : ∀ r ∈ recs, r ∈ cats) :
    calc_probabilities cats recs =
      some (cats.map fun c =>
        (c, some ((recs.count c : ℚ) / (recs.length : ℚ)))) := by
  rw [calc_probabilities_nonempty cats recs hne,
    count_sum_eq_length cats recs hnd hsub]
  have hlen : recs.length ≠ 0 := fun h => hne (List.length_eq_zero.mp h)
  simp [npdiv, hlen]

/-- C2 witness: records `[A, A, B]` over categories `{A, B, C}` give the
distribution `{A: 2/3, B: 1/3, C: 0}`. -/
theorem calc_probabilities_frequency_witness :
    calc_probabilities ["A", "B", "C"] ["A", "A", "B"] =
      some [("A", some (2 / 3)), ("B", some (1 / 3)), ("C", some 0)] := by
  rw [calc_probabilities_frequency ["A", "B", "C"] ["A", "A", "B"]
    (by decide) (by decide) (by decide)]
  simp [List.count_cons]
  norm_num

/-- On an empty record list over a non-empty configured set,
`calc_probabilities` takes the uniform branch. -/
theorem calc_probabilities_empty_eq (cats : List String) (hne : cats ≠ []) :
    calc_probabilities cats [] =
      some (cats.map fun c => (c, some (1 / (cats.length : ℚ)))) := by
  have h0 : cats.length ≠ 0 := fun h => hne (List.length_eq_zero.mp h)
  have hlen : (cats.length : ℚ) ≠ 0 := Nat.cast_ne_zero.mpr h0
  simp [calc_probabilities, pydiv, hlen]

/-- C3: on an empty record list over a non-empty configured set of size
`n`, every category is mapped to exactly `1 / n`. -/
theorem calc_probabilities_uniform (cats : List String) (hne : cats ≠ []) :
    calc_probabilities cats [] =
      some (cats.map fun c => (c, some (1 / (cats.length : ℚ)))) :=
  calc_probabilities_empty_eq cats hne

/-- C3 witness: two categories each get probability `1 / 2`. -/
theorem calc_probabilities_uniform_witness :
    calc_probabilities ["A", "B"] [] =
      some [("A", some (1 / 2)), ("B", some (1 / 2))] := by
  rw [calc_probabilities_uniform ["A", "B"] (by decide)]
  norm_num

/-- C4: on a non-empty record list drawn from the configured set, the
returned probability values sum to exactly 1, hence within any positive
tolerance such as the specified relative 1e-9. -/
theorem calc_probabilities_sum_one (cats recs : List String)
    (hne : recs ≠ []) (hsub : ∀ r ∈ recs, r ∈ cats) :
    ∃ out, calc_probabilities cats recs = some out ∧
      ∃ s : ℚ, optSum (out.map Prod.snd) = some s ∧
        |s - 1| ≤ 1 / 1000000000 := by
  have hr : ∃ r, r ∈ recs := by
    cases recs with
    | nil => exact absurd rfl hne
    | cons a as => exact ⟨a, List.mem_cons_self a as⟩
  obtain ⟨r, hr⟩ := hr
  have htot : (cats.map fun c => recs.count c).sum ≠ 0 :=
    total_ne_zero cats recs r hr (hsub r hr)
  refine ⟨_, calc_probabilities_nonempty cats recs hne, ?_⟩
  have hv : ((cats.map fun c =>
        (c, npdiv (recs.count c) ((cats.map fun c => recs.count c).sum))).map
          Prod.snd) =
      cats.map (fun c => some ((recs.count c : ℚ) /
        (((cats.map fun c => recs.count c).sum : ℕ) : ℚ))) := by
    simp [List.map_map, npdiv, htot, Function.comp]
  rw [hv, optSum_map_some]
  refine ⟨_, rfl, ?_⟩
  have hTQ : (((cats.map fun c => recs.count c).sum : ℕ) : ℚ) ≠ 0 :=
    Nat.cast_ne_zero.mpr htot
  have hsum : (cats.map fun c => (recs.count c : ℚ) /
      (((cats.map fun c => recs.count c).sum : ℕ) : ℚ)).sum = 1 := by
    simp only [div_eq_mul_inv, List.sum_map_mul_right, sum_map_count_cast]
    exact mul_inv_cancel₀ hTQ
  rw [hsum]
  norm_num

/-- C4 witness: the sum-to-one property evaluated at `[A, A, B]` over
`{A, B, C}`. -/
theorem calc_probabilities_sum_one_witness :
    ∃ out, calc_probabilities ["A", "B", "C"] ["A", "A", "B"] = some out ∧
      ∃ s : ℚ, optSum (out.map Prod.snd) = some s ∧
        |s - 1| ≤ 1 / 1000000000 :=
  calc_probabilities_sum_one ["A", "B", "C"] ["A", "A", "B"]
    (by decide) (by decide)

/-- C7: on any record list drawn from a non-empty configured set, the
result has exactly the configured categories as its key sequence and every
value is a non-negative rational (never NaN, never dropped). -/
theorem calc_probabilities_keys_and_nonneg (cats recs : List String)
    (hne : cats ≠ []) (hsub : ∀ r ∈ recs, r ∈ cats) :
    ∃ out, calc_probabilities cats recs = some out ∧
      out.map Prod.fst = cats ∧
      ∀ p ∈ out, ∃ q : ℚ, p.2 = some q ∧ 0 ≤ q := by
  by_cases hrec : recs = []
  · subst hrec
    refine ⟨_, calc_probabilities_empty_eq cats hne, ?_, ?_⟩
    · simp [List.map_map, Function.comp_def]
    · intro p hp
      obtain ⟨c, _, rfl⟩ := List.mem_map.mp hp
      exact ⟨_, rfl, div_nonneg zero_le_one (Nat.cast_nonneg _)⟩
  · have hr : ∃ r, r ∈ recs := by
      cases recs with
      | nil => exact absurd rfl hrec
      | cons a as => exact ⟨a, List.mem_cons_self a as⟩
    obtain ⟨r, hr⟩ := hr
    have htot : (cats.map fun c => recs.count c).sum ≠ 0 :=
      total_ne_zero cats recs r hr (hsub r hr)
    refine ⟨_, calc_probabilities_nonempty cats recs hrec, ?_, ?_⟩
    · simp [List.map_map, Function.comp_def]
    · intro p hp
      obtain ⟨c, _, rfl⟩ := List.mem_map.mp hp
      refine ⟨(recs.count c : ℚ) /
          ((((cats.map fun c => recs.count c).sum : ℕ)) : ℚ), ?_,
        div_nonneg (Nat.cast_nonneg _) (Nat.cast_nonneg _)⟩
      simp [npdiv, htot]

/-- C7 witness: evaluated at records `[A]` over `{A, B}`. -/
theorem calc_probabilities_keys_and_nonneg_witness :
    ∃ out, calc_probabilities ["A", "B"] ["A"] = some out ∧
      out.map Prod.fst = ["A", "B"] ∧
      ∀ p ∈ out, ∃ q : ℚ, p.2 = some q ∧ 0 ≤ q :=
  calc_probabilities_keys_and_nonneg ["A", "B"] ["A"] (by decide) (by decide)

/-- C9: on a non-empty record list containing no configured category, the
reindexed counts sum to zero, every configured category is mapped to NaN
(`none`), and the sum of the values is not 1 — the normalization invariant
fails silently. -/
theorem calc_probabilities_nan (cats recs : List String) (hne : recs ≠ [])
    (hout : ∀ r ∈ recs, r ∉ cats) :
    (cats.map fun c => recs.count c).sum = 0 ∧
    calc_probabilities cats recs =
      some (cats.map fun c => (c, (none : Option ℚ))) ∧
    optSum ((cats.map fun c => (c, (none : Option ℚ))).map Prod.snd) ≠
      some 1 := by
  have htot : (cats.map fun c => recs.count c).sum = 0 := by
    apply List.sum_eq_zero
    intro x hx
    obtain ⟨c, hc, rfl⟩ := List.mem_map.mp hx
    exact List.count_eq_zero.mpr (fun hmem => hout c hmem hc)
  refine ⟨htot, ?_, ?_⟩
  · rw [calc_probabilities_nonempty cats recs hne, htot]
    simp [npdiv]
  · cases cats with
    | nil => simp [optSum]
    | cons a as => simp [optSum]

/-- C9 witness: evaluated at records `[X, Y]` over `{A, B, C}`. -/
theorem calc_probabilities_nan_witness :
    ((["A", "B", "C"] : List String).map
        fun c => List.count c ["X", "Y"]).sum = 0 ∧
    calc_probabilities ["A", "B", "C"] ["X", "Y"] =
      some ((["A", "B", "C"] : List String).map
        fun c => (c, (none : Option ℚ))) ∧
    optSum (((["A", "B", "C"] : List String).map
        fun c => (c, (none : Option ℚ))).map Prod.snd) ≠ some 1 :=
  calc_probabilities_nan ["A", "B", "C"] ["X", "Y"] (by decide) (by decide)

/-- C1: on a non-negative bet and a pool dict with a non-negative value for
each configured category, `expected_value` returns an entry per category,
with `payout[c] = ((sum of the pool + bet) / (pool[c] + bet)) * bet` when
`pool[c] + bet > 0` and `0` otherwise, and `ev[c] = probs[c] * payout[c]
- bet`. -/
theorem expected_value_formula (cats : List String) (_hnd : cats.Nodup)
    (bet : ℚ) (hbet : 0 ≤ bet) (poolf probsf : String → ℚ)
    (hpool : ∀ c ∈ cats, 0 ≤ poolf c) :
    expected_value cats bet (cats.map fun c => (c, poolf c))
        (cats.map fun c => (c, probsf c)) =
      some
        (cats.map fun c => (c, probsf c *
            (if 0 < poolf c + bet then
              (((cats.map poolf).sum + bet) / (poolf c + bet)) * bet
            else 0) - bet),
         cats.map fun c => (c,
            if 0 < poolf c + bet then
              (((cats.map poolf).sum + bet) / (poolf c + bet)) * bet
            else 0)) := by
  rw [expected_value_closed]
  have key : ∀ c ∈ cats,
      payoutClosed ((cats.map poolf).sum) bet (poolf c) =
        if 0 < poolf c + bet then
          (((cats.map poolf).sum + bet) / (poolf c + bet)) * bet
        else 0 := by
    intro c hc
    have h0 : 0 ≤ poolf c + bet := add_nonneg (hpool c hc) hbet
    unfold payoutClosed
    by_cases h : poolf c + bet = 0
    · simp [h]
    · have hlt : 0 < poolf c + bet := lt_of_le_of_ne h0 (Ne.symm h)
      simp [h, hlt]
  have h1 : (cats.map fun c =>
      (c, probsf c * payoutClosed ((cats.map poolf).sum) bet (poolf c) - bet)) =
      cats.map fun c => (c, probsf c *
        (if 0 < poolf c + bet then
          (((cats.map poolf).sum + bet) / (poolf c + bet)) * bet
        else 0) - bet) :=
    List.map_congr_left (fun c hc => by rw [key c hc])
  have h2 : (cats.map fun c =>
      (c, payoutClosed ((cats.map poolf).sum) bet (poolf c))) =
      cats.map fun c => (c,
        if 0 < poolf c + bet then
          (((cats.map poolf).sum + bet) / (poolf c + bet)) * bet
        else 0) :=
    List.map_congr_left (fun c hc => by rw [key c hc])
  rw [h1, h2]

/-- C1 witness: the concrete scenario with pool `{A:100, B:200, C:0}`, bet
`10` and probabilities `{A:1/2, B:3/10, C:1/5}`. -/
theorem expected_value_formula_witness :
    expected_value ["A", "B", "C"] 10
        [("A", (100 : ℚ)), ("B", 200), ("C", 0)]
        [("A", (1 / 2 : ℚ)), ("B", 3 / 10), ("C", 1 / 5)] =
      some ([("A", 45 / 11), ("B", -39 / 7), ("C", 52)],
        [("A", 310 / 11), ("B", 310 / 21), ("C", 310)]) := by
  have h := expected_value_formula ["A", "B", "C"] (by decide) 10 (by norm_num)
    (fun c => if c = "A" then 100 else if c = "B" then 200 else 0)
    (fun c => if c = "A" then 1 / 2 else if c = "B" then 3 / 10 else 1 / 5)
    (by intro c _; dsimp only; split_ifs <;> norm_num)
  refine h.trans ?_
  simp
  norm_num

/-- C5: with a zero bet, every payout and every expected value is 0. -/
theorem expected_value_zero_bet (cats : List String) (_hnd : cats.Nodup)
    (poolf probsf : String → ℚ) (_hpool : ∀ c ∈ cats, 0 ≤ poolf c) :
    expected_value cats 0 (cats.map fun c => (c, poolf c))
        (cats.map fun c => (c, probsf c)) =
      some (cats.map fun c => (c, (0 : ℚ)),
        cats.map fun c => (c, (0 : ℚ))) := by
  rw [expected_value_closed]
  have key : ∀ c, payoutClosed ((cats.map poolf).sum) 0 (poolf c) = 0 := by
    intro c
    unfold payoutClosed
    by_cases h : poolf c + 0 = 0 <;> simp [h]
  simp [key]

/-- C5 witness: zero bet on pool `{A:5, B:7}` with probabilities
`{A:1/2, B:1/2}`. -/
theorem expected_value_zero_bet_witness :
    expected_value ["A", "B"] 0
        [("A", (5 : ℚ)), ("B", 7)] [("A", (1 / 2 : ℚ)), ("B", 1 / 2)] =
      some ([("A", 0), ("B", 0)], [("A", 0), ("B", 0)]) := by
  have h := expected_value_zero_bet ["A", "B"] (by decide)
    (fun c => if c = "A" then 5 else 7) (fun _ => 1 / 2)
    (by intro c _; dsimp only; split_ifs <;> norm_num)
  refine h.trans ?_
  simp

/-- C6: an all-zero pool with a zero bet yields all-zero payouts and
expected values rather than a division-by-zero error, and more generally
`expected_value` returns a value (raises no exception) on any non-negative
bet and pool with an entry per category, because the division is guarded by
`win_pool ≠ 0`. -/
theorem expected_value_total (cats : List String) (_hnd : cats.Nodup)
    (bet : ℚ) (_hbet : 0 ≤ bet) (poolf probsf anyprobs : String → ℚ)
    (_hpool : ∀ c ∈ cats, 0 ≤ poolf c) :
    expected_value cats 0 (cats.map fun c => (c, (0 : ℚ)))
        (cats.map fun c => (c, anyprobs c)) =
      some (cats.map fun c => (c, (0 : ℚ)),
        cats.map fun c => (c, (0 : ℚ))) ∧
    (expected_value cats bet (cats.map fun c => (c, poolf c))
        (cats.map fun c => (c, probsf c))).isSome = true := by
  constructor
  · rw [expected_value_closed]
    simp [payoutClosed]
  · rw [expected_value_closed]
    rfl

/-- C6 witness: pool `{A:0, B:0, C:0}` with bet 0 and arbitrary
probabilities `{A:1/3, B:1/3, C:1/3}`; totality checked at bet 2 over pool
`{A:1, B:0, C:4}`. -/
theorem expected_value_total_witness :
    expected_value ["A", "B", "C"] 0
        [("A", (0 : ℚ)), ("B", 0), ("C", 0)]
        [("A", (1 / 3 : ℚ)), ("B", 1 / 3), ("C", 1 / 3)] =
      some ([("A", 0), ("B", 0), ("C", 0)], [("A", 0), ("B", 0), ("C", 0)]) ∧
    (expected_value ["A", "B", "C"] 2
        [("A", (1 : ℚ)), ("B", 0), ("C", 4)]
        [("A", (1 / 3 : ℚ)), ("B", 1 / 3), ("C", 1 / 3)]).isSome = true := by
  have h := expected_value_total ["A", "B", "C"] (by decide) 2 (by norm_num)
    (fun c => if c = "A" then 1 else if c = "B" then 0 else 4)
    (fun _ => 1 / 3) (fun _ => 1 / 3)
    (by intro c _; dsimp only; split_ifs <;> norm_num)
  obtain ⟨h1, h2⟩ := h
  exact ⟨h1.trans (by simp), h2⟩

/-- C8: both functions are deterministic — two invocations on equal inputs
return equal outputs.  (Freedom from I/O and input mutation holds by
construction of the embedding: both are total functions of their
arguments.) -/
theorem engine_deterministic (cats cats' recs recs' : List String)
    (bet bet' : ℚ) (pool pool' probs probs' : List (String × ℚ))
    (h1 : cats = cats') (h2 : recs = recs') (h3 : bet = bet')
    (h4 : pool = pool') (h5 : probs = probs') :
    calc_probabilities cats recs = calc_probabilities cats' recs' ∧
    expected_value cats bet pool probs =
      expected_value cats' bet' pool' probs' := by
  subst h1 h2 h3 h4 h5
  exact ⟨rfl, rfl⟩

/-- C8 witness: determinism evaluated on concrete equal inputs. -/
theorem engine_deterministic_witness :
    calc_probabilities ["A", "B"] ["A"] = calc_probabilities ["A", "B"] ["A"] ∧
    expected_value ["A", "B"] 1 [("A", (2 : ℚ)), ("B", 3)]
        [("A", (1 / 2 : ℚ)), ("B", 1 / 2)] =
      expected_value ["A", "B"] 1 [("A", (2 : ℚ)), ("B", 3)]
        [("A", (1 / 2 : ℚ)), ("B", 1 / 2)] :=
  engine_deterministic ["A", "B"] ["A", "B"] ["A"] ["A"] 1 1
    [("A", 2), ("B", 3)] [("A", 2), ("B", 3)]
    [("A", 1 / 2), ("B", 1 / 2)] [("A", 1 / 2), ("B", 1 / 2)]
    rfl rfl rfl rfl rfl

/-- C10: with a strictly positive bet, a non-negative pool and non-negative
probabilities, every category's payout is at least the bet and every
category's expected value is at least `probs[c] * bet - bet`. -/
theorem expected_value_payout_ge_bet (cats : List String) (_hnd : cats.Nodup)
    (bet : ℚ) (hbet : 0 < bet) (poolf probsf : String → ℚ)
    (hpool : ∀ c ∈ cats, 0 ≤ poolf c) (hprobs : ∀ c ∈ cats, 0 ≤ probsf c) :
    ∃ ev pay, expected_value cats bet (cats.map fun c => (c, poolf c))
        (cats.map fun c => (c, probsf c)) = some (ev, pay) ∧
      ∀ c ∈ cats, ∃ p e, pay.lookup c = some p ∧ ev.lookup c = some e ∧
        bet ≤ p ∧ probsf c * bet - bet ≤ e := by
  refine ⟨_, _, expected_value_closed cats bet poolf probsf, ?_⟩
  intro c hc
  have hS : poolf c ≤ (cats.map poolf).sum := by
    have hmem : poolf c ∈ cats.map poolf := List.mem_map_of_mem _ hc
    have hnn : ∀ x ∈ cats.map poolf, (0 : ℚ) ≤ x := by
      intro x hx
      obtain ⟨a, ha, rfl⟩ := List.mem_map.mp hx
      exact hpool a ha
    exact List.single_le_sum hnn _ hmem
  have hwp : 0 < poolf c + bet := add_pos_of_nonneg_of_pos (hpool c hc) hbet
  have hpay : bet ≤ payoutClosed ((cats.map poolf).sum) bet (poolf c) := by
    unfold payoutClosed
    rw [if_pos hwp.ne']
    have hratio : 1 ≤ ((cats.map poolf).sum + bet) / (poolf c + bet) :=
      (one_le_div hwp).mpr (by linarith)
    exact le_mul_of_one_le_left hbet.le hratio
  refine ⟨payoutClosed ((cats.map poolf).sum) bet (poolf c),
    probsf c * payoutClosed ((cats.map poolf).sum) bet (poolf c) - bet,
    lookup_map_self _ cats c hc, lookup_map_self _ cats c hc, hpay, ?_⟩
  have := mul_le_mul_of_nonneg_left hpay (hprobs c hc)
  linarith

/-- C10 witness: bet 10 on pool `{A:100, B:200, C:0}` with probabilities
`{A:1/2, B:3/10, C:1/5}`. -/
theorem expected_value_payout_ge_bet_witness :
    ∃ ev pay, expected_value ["A", "B", "C"] 10
        ((["A", "B", "C"] : List String).map fun c =>
          (c, if c = "A" then (100 : ℚ) else if c = "B" then 200 else 0))
        ((["A", "B", "C"] : List String).map fun c =>
          (c, if c = "A" then (1 / 2 : ℚ) else if c = "B" then 3 / 10
            else 1 / 5)) = some (ev, pay) ∧
      ∀ c ∈ (["A", "B", "C"] : List String), ∃ p e,
        pay.lookup c = some p ∧ ev.lookup c = some e ∧ (10 : ℚ) ≤ p ∧
        (if c = "A" then (1 / 2 : ℚ) else if c = "B" then 3 / 10
          else 1 / 5) * 10 - 10 ≤ e :=
  expected_value_payout_ge_bet ["A", "B", "C"] (by decide) 10 (by norm_num)
    (fun c => if c = "A" then 100 else if c = "B" then 200 else 0)
    (fun c => if c = "A" then 1 / 2 else if c = "B" then 3 / 10 else 1 / 5)
    (by intro c _; dsimp only; split_ifs <;> norm_num)
    (by intro c _; dsimp only; split_ifs <;> norm_num)

end Sogake
